import Mathlib
deriving instance DecidableEq for Except

namespace GetPath

/-!
Shallow embedding of Modules/getpath.c (POSIX path-configuration
computation) and verification of its specification claims.

Modelling conventions:
* Wide-character strings (`wchar_t *`) are `List Char`; the terminating
  NUL is implicit (a `List Char` value is the string up to the NUL).
* Fixed-capacity buffers are modelled by passing the capacity (`cap`,
  the C `*_len` arguments, counted in characters including the NUL) to
  every operation that checks it; an operation that the C code fails
  with `PATHLEN_ERR()` returns `Except.error ()`.
* `stat`-based predicates swallow all errors into `false` exactly as the
  C helpers `isfile`/`isxfile`/`isdir` do, so the filesystem is an
  oracle of boolean predicates plus `readlink` and the two
  configuration files that are read (`pyvenv.cfg`, `pybuilddir.txt`).
* Platform conditionals are fixed to the plain POSIX build:
  no `__APPLE__`, no `WITH_NEXT_FRAMEWORK`, no `__CYGWIN__`,
  `HAVE_READLINK` enabled.  `SEP` is '/', `DELIM` is ':'.
* Loops whose variant is the strictly-shrinking path buffer are given an
  explicit fuel argument so that they are structurally recursive; the
  wrappers instantiate the fuel with `length + 1`, which is exact
  because every iteration shortens the buffer by at least one character
  (`reduce_length_lt`), so the fuel-exhaustion branch is unreachable
  from the wrappers.
-/

/-- Path separator character (the C `SEP`, '/' on POSIX). -/
def SEP : Char := '/'

/-- Path-list delimiter character (the C `DELIM`, ':' on POSIX). -/
def DELIM : Char := ':'

/-- Maximum path length; every C buffer holds `MAXPATHLEN + 1` characters. -/
def MAXPATHLEN : Nat := 1024

/-- Landmark file name (the `LANDMARK` macro, `L"os.py"`). -/
def LANDMARK : List Char := "os.py".data

/-- Filesystem oracle.  `pyvenvHome p`: `none` means `pyvenv.cfg` at `p`
cannot be opened; `some h` means it opens and `h` is the value of its
`home` key if present (`_Py_FindEnvConfigValue`).  `readfile p`: `none`
means `fopen` fails, `some none` means the UTF-8 decode of the content
fails, `some (some c)` is the decoded content. -/
structure FS where
  isfile : List Char → Bool
  isxfile : List Char → Bool
  isdir : List Char → Bool
  readlink : List Char → Option (List Char)
  pyvenvHome : List Char → Option (Option (List Char))
  readfile : List Char → Option (Option (List Char))

/-- `_Py_isabs`: a path is absolute iff its first character is `SEP`. -/
def isabs (p : List Char) : Bool := p.head? = some SEP

/-- `reduce()`: truncate the buffer at the last separator, removing the
final path segment together with the separator; a string containing no
separator becomes empty. -/
def reduce (dir : List Char) : List Char :=
  ((dir.reverse.dropWhile (· != SEP)).drop 1).reverse

/-- `joinpath()`: append `path2` to `path`, inserting `SEP` when `path`
is non-empty and not already separator-terminated; an absolute `path2`
replaces `path`.  Fails when the result would not fit in `cap`
characters (including the NUL). -/
def joinpath (path path2 : List Char) (cap : Nat) : Except Unit (List Char) :=
  if isabs path2 then
    if cap ≤ path2.length then .error () else .ok path2
  else
    if cap ≤ path.length then .error ()
    else
      let p := if 0 < path.length ∧ path.getLast? ≠ some SEP then path ++ [SEP] else path
      if cap ≤ p.length + path2.length then .error () else .ok (p ++ path2)

/-- `safe_wcscpy()`: copy `src` into a buffer of `n` characters, failing
(and leaving an empty buffer, which callers that ignore the status then
see) when `src` does not fit. -/
def safe_wcscpy (src : List Char) (n : Nat) : Except Unit (List Char) :=
  if n ≤ src.length then .error () else .ok src

/-- `copy_absolute()`: copy `path`, resolving it against the current
working directory when it is relative.  `cwd = none` models
`_Py_wgetcwd` failure, in which case the relative path is copied
unchanged; a working directory that does not fit the destination buffer
also makes `_Py_wgetcwd` fail. -/
def copy_absolute (cwd : Option (List Char)) (path : List Char) (cap : Nat) :
    Except Unit (List Char) :=
  if isabs path then safe_wcscpy path cap
  else
    match cwd with
    | none => safe_wcscpy path cap
    | some c =>
      if cap ≤ c.length then safe_wcscpy path cap
      else joinpath c (if path.take 2 = ['.', SEP] then path.drop 2 else path) cap

/-- `absolutize()`: make `path` absolute via a `MAXPATHLEN + 1` scratch
buffer, then copy it back into a buffer of `cap` characters. -/
def absolutize (cwd : Option (List Char)) (path : List Char) (cap : Nat) :
    Except Unit (List Char) :=
  if isabs path then .ok path
  else do
    let a ← copy_absolute cwd path (MAXPATHLEN + 1)
    safe_wcscpy a cap

/-- `ismodule()`: test for the landmark file at `path`, trying first
`path/os.py` and then, if it still fits the scratch buffer, the
compiled variant `path/os.pyc`. -/
def ismodule (fs : FS) (path : List Char) : Except Unit Bool := do
  let f ← safe_wcscpy path (MAXPATHLEN + 1)
  let f ← joinpath f LANDMARK (MAXPATHLEN + 1)
  if fs.isfile f then pure true
  else if f.length + 2 ≤ MAXPATHLEN + 1 then
    pure (fs.isfile (f ++ ['c']))
  else pure false

/-- Compile-time constants and run-time inputs gathered by
`calculate_init` into `PyCalculatePath`.  `pythonpath` is the PYTHONPATH
macro (the default search-path list), `pfxMacro`/`execPfxMacro` the
PREFIX/EXEC_PREFIX macros, `lib_python` the decoded "lib/pythonX.Y"
string, `version` the VERSION macro, `vpath` the decoded VPATH macro
(`none` models a `Py_DecodeLocale` failure, which the build-tree check
silently skips), `path_env` the PATH environment variable and
`pythonpath_env` the PYTHONPATH environment variable. -/
structure CalcPath where
  pythonpath : List Char
  pfxMacro : List Char
  execPfxMacro : List Char
  lib_python : List Char
  version : List Char
  vpath : Option (List Char)
  path_env : Option (List Char)
  warnings : Bool
  pythonpath_env : Option (List Char)

/-- Inputs/outputs of `_PyPathConfig`: `none` models a NULL field, which
is the "compute it" request; any non-NULL field is preserved. -/
structure PathConfig where
  program_full_path : Option (List Char)
  home : Option (List Char)
  program_name : List Char
  module_search_path : Option (List Char)
  pfx : Option (List Char)
  exec_pfx : Option (List Char)
  deriving DecidableEq

/-- Status of `resolve_symlinks`: `.err` covers both the 40-link bound
("maximum number of symbolic links reached") and a path-too-long
failure; the C caller discards this status. -/
inductive RStat
  | ok
  | err
  deriving DecidableEq

/-- Loop of `search_for_prefix` ("Search from argv0_path, until root is
found"), fuelled.  Each round joins `lib_python`, tests the landmark
via `ismodule`, and on failure restores the buffer and `reduce`s it;
the do-while condition is `prefix[0]`, i.e. the loop exits when the
reduced buffer is empty.  Fuel `0` is unreachable from the wrapper. -/
def pfx_loopF (fs : FS) (libp : List Char) (cap : Nat) :
    Nat → List Char → Except Unit (Option (List Char))
  | 0, _ => .error ()
  | fuel + 1, p => do
    let cand ← joinpath p libp cap
    let m ← ismodule fs cand
    if m then pure (some cand)
    else
      let p2 := reduce p
      if p2.isEmpty then pure none
      else pfx_loopF fs libp cap fuel p2

/-- Ancestor walk of the prefix search; the fuel `length + 1` is exact
because `reduce` strictly shortens a non-empty buffer. -/
def pfx_loop (fs : FS) (libp : List Char) (cap : Nat) (p : List Char) :
    Except Unit (Option (List Char)) :=
  pfx_loopF fs libp cap (p.length + 1) p

/-- Candidate directories probed by the ancestor walk, in order; used to
state the termination/probe-count property.  Mirrors `pfx_loopF` step
for step. -/
def pfx_probesF (fs : FS) (libp : List Char) (cap : Nat) :
    Nat → List Char → List (List Char)
  | 0, _ => []
  | fuel + 1, p =>
    match joinpath p libp cap with
    | .error _ => [p]
    | .ok cand =>
      match ismodule fs cand with
      | .error _ => [p]
      | .ok true => [p]
      | .ok false =>
        let p2 := reduce p
        if p2.isEmpty then [p]
        else p :: pfx_probesF fs libp cap fuel p2

/-- Probed candidates of the ancestor walk (fuel instantiated as in
`pfx_loop`). -/
def pfx_probes (fs : FS) (libp : List Char) (cap : Nat) (p : List Char) :
    List (List Char) :=
  pfx_probesF fs libp cap (p.length + 1) p

/-- `search_for_prefix()`: home override, then build-tree check
(`Modules/Setup.local` marker plus `<argv0_path>/<vpath>/Lib`
landmark), then the ancestor walk, then the PREFIX-macro fallback.
Returns the prefix buffer contents and the `found` tri-state
(1 installed, -1 build tree, 0 not found). -/
def search_for_pfx (fs : FS) (c : CalcPath) (home : Option (List Char))
    (argv0_path : List Char) (cwd : Option (List Char)) (cap : Nat) :
    Except Unit (List Char × Int) := do
  match home with
  | some h => do
    let p ← safe_wcscpy h cap
    let p := p.takeWhile (· != DELIM)
    let p ← joinpath p c.lib_python cap
    pure (p, 1)
  | none => do
    let marker ← safe_wcscpy argv0_path (MAXPATHLEN + 1)
    let marker ← joinpath marker "Modules/Setup.local".data (MAXPATHLEN + 1)
    let bt ←
      if fs.isfile marker then
        match c.vpath with
        | some v => do
          let p ← safe_wcscpy argv0_path cap
          let p ← joinpath p v cap
          let p ← joinpath p "Lib".data cap
          let m ← ismodule fs p
          if m then pure (some p) else pure none
        | none => pure none
      else pure none
    match bt with
    | some p => pure (p, -1)
    | none => do
      let p ← copy_absolute cwd argv0_path cap
      match ← pfx_loop fs c.lib_python cap p with
      | some p => pure (p, 1)
      | none => do
        let p ← safe_wcscpy c.pfxMacro cap
        let p ← joinpath p c.lib_python cap
        let m ← ismodule fs p
        if m then pure (p, 1) else pure (p, 0)

/-- `calculate_prefix()`: on a not-found outcome, emit a warning (an I/O
side effect, not modelled) and fall back to the PREFIX macro joined
with `lib_python`. -/
def calculate_pfx (fs : FS) (c : CalcPath) (home : Option (List Char))
    (argv0_path : List Char) (cwd : Option (List Char)) (cap : Nat) :
    Except Unit (List Char × Int) := do
  let (p, found) ← search_for_pfx fs c home argv0_path cwd cap
  if found = 0 then do
    let p ← safe_wcscpy c.pfxMacro cap
    let p ← joinpath p c.lib_python cap
    pure (p, 0)
  else pure (p, found)

/-- `calculate_set_prefix()`: an installed-tree result (`found > 0`) is
reduced twice (stripping "lib/pythonX.Y"), an emptied buffer becomes
the root separator; any other outcome reports the PREFIX macro. -/
def calculate_set_pfx (found : Int) (p : List Char) (pfxMacro : List Char) :
    List Char :=
  if 0 < found then
    let r := reduce (reduce p)
    if r.isEmpty then [SEP] else r
  else pfxMacro

/-- `calculate_pybuilddir()`: read `<argv0_path>/pybuilddir.txt`; a
missing or unopenable file is "not found" (`none`), a decode failure is
fatal, otherwise the exec-prefix is `argv0_path` joined with the file
content and the outcome is the build-tree tag. -/
def calculate_pybuilddir (fs : FS) (argv0_path : List Char) (cap : Nat) :
    Except Unit (Option (List Char)) := do
  let f ← safe_wcscpy argv0_path (MAXPATHLEN + 1)
  let f ← joinpath f "pybuilddir.txt".data (MAXPATHLEN + 1)
  if fs.isfile f then
    match fs.readfile f with
    | none => pure none
    | some none => .error ()
    | some (some content) => do
      let e ← safe_wcscpy argv0_path cap
      let e ← joinpath e content cap
      pure (some e)
  else pure none

/-- Ancestor-walk loop of `search_for_exec_prefix`: like the prefix walk
but probing `candidate/lib_python/lib-dynload` as a directory. -/
def exec_loopF (fs : FS) (libp : List Char) (cap : Nat) :
    Nat → List Char → Except Unit (Option (List Char))
  | 0, _ => .error ()
  | fuel + 1, p => do
    let cand ← joinpath p libp cap
    let cand ← joinpath cand "lib-dynload".data cap
    if fs.isdir cand then pure (some cand)
    else
      let p2 := reduce p
      if p2.isEmpty then pure none
      else exec_loopF fs libp cap fuel p2

/-- Exec-prefix ancestor walk with exact fuel. -/
def exec_loop (fs : FS) (libp : List Char) (cap : Nat) (p : List Char) :
    Except Unit (Option (List Char)) :=
  exec_loopF fs libp cap (p.length + 1) p

/-- `search_for_exec_prefix()`: the home override keeps only the part
after the first `DELIM` when one is embedded; then `pybuilddir.txt`,
then the ancestor walk, then the EXEC_PREFIX-macro fallback. -/
def search_for_exec_pfx (fs : FS) (c : CalcPath) (home : Option (List Char))
    (argv0_path : List Char) (cwd : Option (List Char)) (cap : Nat) :
    Except Unit (List Char × Int) := do
  match home with
  | some h => do
    let base := if (h.dropWhile (· != DELIM)).isEmpty then h
                else (h.dropWhile (· != DELIM)).drop 1
    let e ← safe_wcscpy base cap
    let e ← joinpath e c.lib_python cap
    let e ← joinpath e "lib-dynload".data cap
    pure (e, 1)
  | none => do
    match ← calculate_pybuilddir fs argv0_path cap with
    | some e => pure (e, -1)
    | none => do
      let p ← copy_absolute cwd argv0_path cap
      match ← exec_loop fs c.lib_python cap p with
      | some e => pure (e, 1)
      | none => do
        let e ← safe_wcscpy c.execPfxMacro cap
        let e ← joinpath e c.lib_python cap
        let e ← joinpath e "lib-dynload".data cap
        if fs.isdir e then pure (e, 1) else pure (e, 0)

/-- `calculate_exec_prefix()`: fall back to the EXEC_PREFIX macro joined
with "lib/lib-dynload" on a not-found outcome. -/
def calculate_exec_pfx (fs : FS) (c : CalcPath) (home : Option (List Char))
    (argv0_path : List Char) (cwd : Option (List Char)) (cap : Nat) :
    Except Unit (List Char × Int) := do
  let (e, found) ← search_for_exec_pfx fs c home argv0_path cwd cap
  if found = 0 then do
    let e ← safe_wcscpy c.execPfxMacro cap
    let e ← joinpath e "lib/lib-dynload".data cap
    pure (e, 0)
  else pure (e, found)

/-- `calculate_set_exec_prefix()`: an installed-tree result is reduced
three times; otherwise the EXEC_PREFIX macro is reported. -/
def calculate_set_exec_pfx (found : Int) (e : List Char)
    (execPfxMacro : List Char) : List Char :=
  if 0 < found then
    let r := reduce (reduce (reduce e))
    if r.isEmpty then [SEP] else r
  else execPfxMacro

/-- Split a `DELIM`-separated list into its entries; `wcschr`-based
scanning in the C loops visits exactly these entries in order. -/
def split_delim : List Char → List (List Char)
  | [] => [[]]
  | ch :: rest =>
    if ch = DELIM then [] :: split_delim rest
    else
      match split_delim rest with
      | [] => [[ch]]
      | e :: es => (ch :: e) :: es

/-- `calculate_which()`: walk the PATH entries (as split on `DELIM`),
join the program name onto each, and return the first executable hit;
an entry that does not fit the buffer is a length error. -/
def calculate_which (fs : FS) (prog : List Char) (cap : Nat) :
    List (List Char) → Except Unit (Option (List Char))
  | [] => pure none
  | dir :: rest => do
    let f ← if cap ≤ dir.length then .error () else pure dir
    let f ← joinpath f prog cap
    if fs.isxfile f then pure (some f)
    else calculate_which fs prog cap rest

/-- `calculate_program_impl()`: a program name containing a separator is
used as is; otherwise search PATH; otherwise the empty string. -/
def calculate_program_impl (fs : FS) (c : CalcPath) (program_name : List Char)
    (cap : Nat) : Except Unit (List Char) := do
  if SEP ∈ program_name then
    safe_wcscpy program_name cap
  else
    match c.path_env with
    | some env => do
      match ← calculate_which fs program_name cap (split_delim env) with
      | some f => pure f
      | none => pure []
    | none => pure []

/-- `calculate_program()`: compute the full program path and absolutize
a non-empty relative result. -/
def calculate_program (fs : FS) (c : CalcPath) (program_name : List Char)
    (cwd : Option (List Char)) : Except Unit (List Char) := do
  let f ← calculate_program_impl fs c program_name (MAXPATHLEN + 1)
  if f.isEmpty then pure f
  else if isabs f then pure f
  else absolutize cwd f (MAXPATHLEN + 1)

/-- Loop of `resolve_symlinks()`.  `remaining` counts down from 40
(`remaining = 40 - links` in C terms): after following a link the C
code increments `links` and fails once `links >= 40`.  On a length
error the buffer is left empty by `safe_wcscpy`; on a `joinpath` error
the buffer is modelled as the reduced path (the C content beyond the
old terminator is unspecified there; no theorem below depends on it). -/
def resolve_links (fs : FS) (cap : Nat) :
    Nat → List Char → RStat × List Char
  | remaining, path =>
    match fs.readlink path with
    | none => (.ok, path)
    | some np =>
      match (if isabs np then safe_wcscpy np cap
             else joinpath (reduce path) np cap) with
      | .error _ => (.err, if isabs np then [] else reduce path)
      | .ok p =>
        match remaining with
        | 0 => (.err, p)
        | 1 => (.err, p)
        | r + 2 => resolve_links fs cap (r + 1) p

/-- `resolve_symlinks()`: iteratively chase symbolic links, bounded to
40 followed links. -/
def resolve_symlinks (fs : FS) (cap : Nat) (path : List Char) :
    RStat × List Char :=
  resolve_links fs cap 40 path

/-- `calculate_argv0_path()` (POSIX, no framework): copy the program
path, resolve symlinks — the status of `resolve_symlinks` is discarded,
exactly as in the source — and strip the last component. -/
def calculate_argv0_path (fs : FS) (program_full_path : List Char)
    (cap : Nat) : Except Unit (List Char) := do
  let p ← safe_wcscpy program_full_path cap
  let p := (resolve_symlinks fs cap p).2
  pure (reduce p)

/-- `calculate_read_pyenv()`: look for `pyvenv.cfg` next to the
executable, then (after reducing the file name twice, i.e. in the
parent of `argv0_path`) one level up; a `home` key replaces
`argv0_path`, and absence of file or key leaves it unchanged. -/
def calculate_read_pyenv (fs : FS) (argv0_path : List Char) (cap : Nat) :
    Except Unit (List Char) := do
  let f ← safe_wcscpy argv0_path (MAXPATHLEN + 1)
  let f ← joinpath f "pyvenv.cfg".data (MAXPATHLEN + 1)
  match fs.pyvenvHome f with
  | some (some h) => safe_wcscpy h cap
  | some none => pure argv0_path
  | none => do
    let f := reduce (reduce f)
    let f ← joinpath f "pyvenv.cfg".data (MAXPATHLEN + 1)
    match fs.pyvenvHome f with
    | some (some h) => safe_wcscpy h cap
    | some none => pure argv0_path
    | none => pure argv0_path

/-- `calculate_zip_path()`: the archive path is the (twice-reduced, for
an installed-tree prefix) prefix root joined with "lib/python00.zip",
the two '0' characters then overwritten with `VERSION[0]` and
`VERSION[2]`. -/
def calculate_zip_path (c : CalcPath) (found : Int) (p : List Char)
    (cap : Nat) : Except Unit (List Char) := do
  let z ←
    if 0 < found then do
      let z ← safe_wcscpy p cap
      pure (reduce (reduce z))
    else safe_wcscpy c.pfxMacro cap
  let z ← joinpath z "lib/python00.zip".data cap
  pure ((z.set (z.length - 6) (c.version.getD 0 '0')).set (z.length - 5)
    (c.version.getD 2 '0'))

/-- Per-entry transformation of the defpath merge loop in
`calculate_module_search_path()`: a relative entry is prefixed with the
resolved prefix, inserting a separator when the prefix is non-empty,
not already separator-terminated, and the entry is non-empty
(`prefixsz >= 2 && prefix[prefixsz-2] != SEP && defpath[0] != ...`). -/
def msp_entry (pfx e : List Char) : List Char :=
  if isabs e then e
  else
    pfx ++ (if pfx ≠ [] ∧ pfx.getLast? ≠ some SEP ∧ e ≠ [] then [SEP] else []) ++ e

/-- Merge loop of `calculate_module_search_path()` over the entries of
the compile-time defpath (the C code scans the raw string with `wcschr`
and appends entry plus trailing `DELIM`; iterating over the
`split_delim` entries appends exactly the same characters). -/
def msp_merge (pfx : List Char) : List (List Char) → List Char
  | [] => []
  | [e] => msp_entry pfx e
  | e :: es => msp_entry pfx e ++ DELIM :: msp_merge pfx es

/-- `calculate_module_search_path()`: `$PYTHONPATH` (when present), then
the zip archive path, then the merged defpath entries, then the
exec-prefix, all `DELIM`-separated. -/
def calculate_module_search_path (pythonpath_env : Option (List Char))
    (defpath pfx exec_p zip_path : List Char) : List Char :=
  (match pythonpath_env with
   | some env => env ++ [DELIM]
   | none => []) ++
  zip_path ++ DELIM :: msp_merge pfx (split_delim defpath) ++ DELIM :: exec_p

/-- `calculate_path()`: compute the full program path, the anchor
directory (`argv0_path`, possibly overridden by `pyvenv.cfg`), prefix,
zip path, exec-prefix, and the module search path; each of the four
output fields is computed only when the caller left it NULL.  The
not-found warning it may print is an I/O side effect, not modelled. -/
def calculate_path (fs : FS) (c : CalcPath) (cwd : Option (List Char))
    (pc : PathConfig) : Except Unit PathConfig :=
  (match pc.program_full_path with
   | some f => pure f
   | none => calculate_program fs c pc.program_name cwd) >>= fun fullpath =>
  calculate_argv0_path fs fullpath (MAXPATHLEN + 1) >>= fun argv0 =>
  calculate_read_pyenv fs argv0 (MAXPATHLEN + 1) >>= fun argv1 =>
  calculate_pfx fs c pc.home argv1 cwd (MAXPATHLEN + 1) >>= fun pr =>
  calculate_zip_path c pr.2 pr.1 (MAXPATHLEN + 1) >>= fun zip =>
  calculate_exec_pfx fs c pc.home argv1 cwd (MAXPATHLEN + 1) >>= fun er =>
  pure { pc with
         program_full_path := some fullpath
         module_search_path := some (match pc.module_search_path with
           | some m => m
           | none => calculate_module_search_path c.pythonpath_env c.pythonpath
               pr.1 er.1 zip)
         pfx := some (match pc.pfx with
           | some x => x
           | none => calculate_set_pfx pr.2 pr.1 c.pfxMacro)
         exec_pfx := some (match pc.exec_pfx with
           | some x => x
           | none => calculate_set_exec_pfx er.2 er.1 c.execPfxMacro) }

/-!  Spec-shaped auxiliary definitions (used to compare the embedded
code against the specification's wording). -/

/-- Untruncated mathematical join of a base path and a component, as
the specification describes `join`: an absolute component replaces the
base; otherwise the component is appended, a separator inserted only
when the base is non-empty and not already separator-terminated.
`joinpath` is compared against this to show it never truncates. -/
def join_model (p p2 : List Char) : List Char :=
  if isabs p2 then p2
  else p ++ (if p ≠ [] ∧ p.getLast? ≠ some SEP then [SEP] else []) ++ p2

/-- Build the absolute path `/s1/s2/.../sN` from the segment list. -/
def mkAbs (segs : List (List Char)) : List Char :=
  segs.foldl (fun a s => a ++ SEP :: s) []

/-- A segment list is well formed when every segment is non-empty and
separator-free (the shape `reduce` peels one segment at a time). -/
def goodSegs (segs : List (List Char)) : Prop :=
  ∀ s ∈ segs, s ≠ [] ∧ SEP ∉ s

/-- The candidate directories the ancestor walk visits on an anchor `N`
segments deep with no landmark anywhere: the anchor, then each ancestor
obtained by dropping one trailing segment, down to depth one. -/
def probeChain (segs : List (List Char)) : List (List Char) :=
  (List.range segs.length).map (fun k => mkAbs (segs.take (segs.length - k)))

/-- Filesystem with nothing on it. -/
def fsNone : FS where
  isfile := fun _ => false
  isxfile := fun _ => false
  isdir := fun _ => false
  readlink := fun _ => none
  pyvenvHome := fun _ => none
  readfile := fun _ => none

/-- Typical compile-time record for a 3.9 runtime. -/
def calW : CalcPath where
  pythonpath := "lib-dynload".data
  pfxMacro := "/usr/local".data
  execPfxMacro := "/usr/local".data
  lib_python := "lib/python3.9".data
  version := "3.9".data
  vpath := some []
  path_env := none
  warnings := false
  pythonpath_env := none

/-- Filesystem of end-to-end scenario A: the landmark is installed
under `/opt/runtime/lib/python3.9`. -/
def fsA : FS where
  isfile := fun p => p == "/opt/runtime/lib/python3.9/os.py".data
  isxfile := fun _ => false
  isdir := fun _ => false
  readlink := fun _ => none
  pyvenvHome := fun _ => none
  readfile := fun _ => none

/-- Delimiter-separated concatenation of a component list, the shape in
which the specification describes the assembled module search path. -/
def joinD : List (List Char) → List Char
  | [] => []
  | [x] => x
  | x :: xs => x ++ DELIM :: joinD xs

/-- Per-entry relativization in the specification's words: a relative
entry is prefixed with the resolved prefix, a separator inserted unless
the entry is empty or the prefix already ends in a separator (the
specification speaks of the assembled, hence non-empty, prefix). -/
def msp_entry_spec (pfx e : List Char) : List Char :=
  if isabs e then e
  else pfx ++ (if e ≠ [] ∧ pfx.getLast? ≠ some SEP then [SEP] else []) ++ e

/-- Name of the i-th chain element: an absolute single-segment path. -/
def nameL (i : Nat) : List Char := SEP :: List.replicate i 'a'

/-- Filesystem holding a chain of `n` symbolic links
`nameL 0 → nameL 1 → ... → nameL n`, where `nameL n` is not a link. -/
def chainFS (n : Nat) : FS where
  isfile := fun _ => false
  isxfile := fun _ => false
  isdir := fun _ => false
  readlink := fun p =>
    ((List.range n).map (fun i => (nameL i, nameL (i + 1)))).lookup p
  pyvenvHome := fun _ => none
  readfile := fun _ => none

/-- Filesystem of end-to-end scenario B: a build tree at `/src` holding
the build marker and the landmark under `/src/Lib` (the VPATH of the
fixture record is empty). -/
def fsB : FS where
  isfile := fun p =>
    p == "/src/Modules/Setup.local".data || p == "/src/Lib/os.py".data
  isxfile := fun _ => false
  isdir := fun _ => false
  readlink := fun _ => none
  pyvenvHome := fun _ => none
  readfile := fun _ => none

/-- Filesystem with `pyvenv.cfg` only in `/a`, the grandparent of the
anchor `/a/b/c`, defining home `/h`. -/
def fsG : FS where
  isfile := fun _ => false
  isxfile := fun _ => false
  isdir := fun _ => false
  readlink := fun _ => none
  pyvenvHome := fun p =>
    if p = "/a/pyvenv.cfg".data then some (some "/h".data) else none
  readfile := fun _ => none

/-- Filesystem with `pyvenv.cfg` only in `/a/b`, the parent of the
anchor `/a/b/c`, defining home `/h`. -/
def fsP : FS where
  isfile := fun _ => false
  isxfile := fun _ => false
  isdir := fun _ => false
  readlink := fun _ => none
  pyvenvHome := fun p =>
    if p = "/a/b/pyvenv.cfg".data then some (some "/h".data) else none
  readfile := fun _ => none

/-- Build tree at `/src` where only the compiled landmark `os.pyc`
exists under `/src/Lib`. -/
def fsBc : FS where
  isfile := fun p =>
    p == "/src/Modules/Setup.local".data || p == "/src/Lib/os.pyc".data
  isxfile := fun _ => false
  isdir := fun _ => false
  readlink := fun _ => none
  pyvenvHome := fun _ => none
  readfile := fun _ => none

/-- Installed tree where only `os.pyc` exists under
`/opt/runtime/lib/python3.9`. -/
def fsAc : FS where
  isfile := fun p => p == "/opt/runtime/lib/python3.9/os.pyc".data
  isxfile := fun _ => false
  isdir := fun _ => false
  readlink := fun _ => none
  pyvenvHome := fun _ => none
  readfile := fun _ => none

/-- Filesystem where only the compiled landmark exists under the
compiled-default prefix `/usr/local`. -/
def fsFc : FS where
  isfile := fun p => p == "/usr/local/lib/python3.9/os.pyc".data
  isxfile := fun _ => false
  isdir := fun _ => false
  readlink := fun _ => none
  pyvenvHome := fun _ => none
  readfile := fun _ => none

/-- Path-configuration record with all four output fields preset. -/
def pcPre : PathConfig where
  program_full_path := some "/opt/runtime/bin/python3".data
  home := none
  program_name := "python3".data
  module_search_path := some "preset".data
  pfx := some "presetp".data
  exec_pfx := some "presete".data

theorem safe_wcscpy_ok {src : List Char} {n : Nat} (h : src.length < n) :
    safe_wcscpy src n = .ok src := by
  unfold safe_wcscpy
  rw [if_neg (by omega)]

theorem joinpath_ok {p p2 : List Char} {cap : Nat} (h1 : p.length < cap)
    (h2 : (join_model p p2).length < cap) :
    joinpath p p2 cap = .ok (join_model p p2) := by
  unfold joinpath join_model at *
  by_cases habs : isabs p2
  · simp only [habs, if_true] at h2 ⊢
    rw [if_neg (by omega)]
  · simp only [habs, if_false, Bool.false_eq_true] at h2 ⊢
    rw [if_neg (by omega)]
    by_cases hc : p ≠ [] ∧ p.getLast? ≠ some SEP
    · have hc' : 0 < p.length ∧ p.getLast? ≠ some SEP :=
        ⟨List.length_pos.mpr hc.1, hc.2⟩
      simp only [if_pos hc, if_pos hc', List.length_append, List.length_cons,
        List.length_nil] at h2 ⊢
      rw [if_neg (by omega)]
    · have hc' : ¬ (0 < p.length ∧ p.getLast? ≠ some SEP) := fun hh =>
        hc ⟨List.length_pos.mp hh.1, hh.2⟩
      simp only [if_neg hc, if_neg hc', List.append_nil, List.nil_append,
        List.length_append, List.length_nil] at h2 ⊢
      rw [if_neg (by omega)]

theorem joinpath_err {p p2 : List Char} {cap : Nat}
    (h : cap ≤ (join_model p p2).length) :
    joinpath p p2 cap = .error () := by
  unfold joinpath join_model at *
  by_cases habs : isabs p2
  · simp only [habs, if_true] at h ⊢
    rw [if_pos (by omega)]
  · simp only [habs, if_false, Bool.false_eq_true] at h ⊢
    by_cases hp : cap ≤ p.length
    · rw [if_pos hp]
    · rw [if_neg hp]
      by_cases hc : p ≠ [] ∧ p.getLast? ≠ some SEP
      · have hc' : 0 < p.length ∧ p.getLast? ≠ some SEP :=
          ⟨List.length_pos.mpr hc.1, hc.2⟩
        simp only [if_pos hc, List.length_append, List.length_cons,
          List.length_nil] at h
        simp only [if_pos hc', List.length_append, List.length_cons,
          List.length_nil]
        rw [if_pos (by omega)]
      · have hc' : ¬ (0 < p.length ∧ p.getLast? ≠ some SEP) := fun hh =>
          hc ⟨List.length_pos.mp hh.1, hh.2⟩
        simp only [if_neg hc, List.append_nil, List.nil_append,
          List.length_append, List.length_nil] at h
        simp only [if_neg hc']
        rw [if_pos (by omega)]

theorem join_model_length_le {p p2 : List Char} :
    (join_model p p2).length ≤ p.length + 1 + p2.length := by
  unfold join_model
  by_cases habs : isabs p2
  · simp only [habs, if_true]
    omega
  · simp only [habs, if_false, Bool.false_eq_true]
    by_cases hc : p ≠ [] ∧ p.getLast? ≠ some SEP <;> simp [hc]
    all_goals omega

theorem reduce_nil : reduce [] = [] := rfl

theorem reduce_length_lt {p : List Char} (h : p ≠ []) :
    (reduce p).length < p.length := by
  unfold reduce
  have h1 : (p.reverse.dropWhile (· != SEP)).length ≤ p.length := by
    have := (List.dropWhile_sublist (l := p.reverse) (· != SEP)).length_le
    simpa using this
  have h2 : 0 < p.length := List.length_pos.mpr h
  simp only [List.length_reverse, List.length_drop]
  omega

theorem reduce_length_le (p : List Char) : (reduce p).length ≤ p.length := by
  rcases eq_or_ne p [] with rfl | h
  · simp [reduce_nil]
  · exact Nat.le_of_lt (reduce_length_lt h)

theorem reduce_append_seg {x s : List Char} (hs : SEP ∉ s) :
    reduce (x ++ SEP :: s) = x := by
  unfold reduce
  rw [List.reverse_append]
  have hall : ∀ a ∈ s.reverse, (a != SEP) = true := by
    intro a ha
    have hmem : a ∈ s := List.mem_reverse.mp ha
    have hne : a ≠ SEP := fun hEq => hs (hEq ▸ hmem)
    simpa using hne
  rw [show (SEP :: s).reverse = s.reverse ++ [SEP] by simp,
      List.append_assoc, List.dropWhile_append_of_pos hall]
  simp [List.dropWhile]

theorem except_bind_ok {α β : Type} {a : Except Unit α} {f : α → Except Unit β}
    {b : β} (h : (a >>= f) = .ok b) : ∃ x, a = .ok x ∧ f x = .ok b := by
  cases a with
  | error e => simp [Bind.bind, Except.bind] at h
  | ok x =>
    refine ⟨x, rfl, ?_⟩
    simpa [Bind.bind, Except.bind] using h

theorem ismodule_eq {fs : FS} {path : List Char}
    (h1 : path.length < MAXPATHLEN + 1)
    (h2 : (join_model path LANDMARK).length + 2 ≤ MAXPATHLEN + 1) :
    ismodule fs path
      = .ok (fs.isfile (join_model path LANDMARK)
             || fs.isfile (join_model path LANDMARK ++ ['c'])) := by
  unfold ismodule
  rw [safe_wcscpy_ok h1]
  simp only [Bind.bind, Except.bind]
  rw [joinpath_ok h1 (by omega)]
  by_cases hf : fs.isfile (join_model path LANDMARK)
  · simp [hf, pure, Except.pure]
  · simp only [Bool.not_eq_true] at hf
    simp [hf, pure, Except.pure]
    intro h3
    exact absurd h3 (by omega)

theorem ismodule_false {fs : FS} {path : List Char}
    (hfs : ∀ q, fs.isfile q = false)
    (h1 : path.length < MAXPATHLEN + 1)
    (h2 : (join_model path LANDMARK).length + 2 ≤ MAXPATHLEN + 1) :
    ismodule fs path = .ok false := by
  rw [ismodule_eq h1 h2, hfs, hfs]
  rfl

theorem mkAbs_acc (segs : List (List Char)) :
    ∀ acc, segs.foldl (fun a s => a ++ SEP :: s) acc = acc ++ mkAbs segs := by
  induction segs with
  | nil => intro acc; simp [mkAbs]
  | cons s rest ih =>
    intro acc
    show List.foldl (fun a s => a ++ SEP :: s) (acc ++ SEP :: s) rest
      = acc ++ mkAbs (s :: rest)
    rw [ih]
    have hrec : mkAbs (s :: rest)
        = List.foldl (fun a s => a ++ SEP :: s) (SEP :: s) rest := rfl
    rw [hrec, ih (SEP :: s)]
    simp [List.append_assoc]

theorem mkAbs_append (xs ys : List (List Char)) :
    mkAbs (xs ++ ys) = mkAbs xs ++ mkAbs ys := by
  unfold mkAbs
  rw [List.foldl_append]
  exact mkAbs_acc ys _

theorem mkAbs_cons (s : List Char) (rest : List (List Char)) :
    mkAbs (s :: rest) = (SEP :: s) ++ mkAbs rest := by
  have : s :: rest = [s] ++ rest := rfl
  rw [this, mkAbs_append]
  rfl

theorem mkAbs_concat (segs : List (List Char)) (s : List Char) :
    mkAbs (segs ++ [s]) = mkAbs segs ++ SEP :: s := by
  rw [mkAbs_append]
  rfl

theorem mkAbs_ne_nil {segs : List (List Char)} (h : segs ≠ []) :
    mkAbs segs ≠ [] := by
  cases segs with
  | nil => exact absurd rfl h
  | cons s rest => rw [mkAbs_cons]; simp

theorem isabs_mkAbs {segs : List (List Char)} (h : segs ≠ []) :
    isabs (mkAbs segs) = true := by
  cases segs with
  | nil => exact absurd rfl h
  | cons s rest => rw [mkAbs_cons]; rfl

theorem reduce_mkAbs_concat {segs : List (List Char)} {s : List Char}
    (hs : SEP ∉ s) : reduce (mkAbs (segs ++ [s])) = mkAbs segs := by
  rw [mkAbs_concat]
  exact reduce_append_seg hs

theorem mkAbs_concat_length (segs : List (List Char)) (s : List Char) :
    (mkAbs (segs ++ [s])).length = (mkAbs segs).length + 1 + s.length := by
  rw [mkAbs_concat]
  simp
  omega

theorem probeChain_nil : probeChain [] = [] := rfl

theorem probeChain_length (segs : List (List Char)) :
    (probeChain segs).length = segs.length := by
  simp [probeChain]

theorem probeChain_concat (segs : List (List Char)) (s : List Char) :
    probeChain (segs ++ [s]) = mkAbs (segs ++ [s]) :: probeChain segs := by
  unfold probeChain
  have hlen : (segs ++ [s]).length = segs.length + 1 := by simp
  rw [hlen, List.range_succ_eq_map, List.map_cons, List.map_map]
  refine congrArg₂ List.cons ?_ ?_
  · rw [Nat.sub_zero, ← hlen, List.take_length]
  · refine List.map_congr_left ?_
    intro k hk
    have hk' : k < segs.length := List.mem_range.mp hk
    show mkAbs ((segs ++ [s]).take (segs.length + 1 - (k + 1)))
      = mkAbs (segs.take (segs.length - k))
    rw [show segs.length + 1 - (k + 1) = segs.length - k by omega,
        List.take_append_of_le_length (by omega)]

theorem probeChain_head {segs : List (List Char)} (h : segs ≠ []) :
    (probeChain segs).head? = some (mkAbs segs) := by
  rcases List.eq_nil_or_concat segs with rfl | ⟨L, b, hseg⟩
  · exact absurd rfl h
  · rw [hseg, List.concat_eq_append, probeChain_concat]
    rfl

theorem mkAbs_take_length_le (segs : List (List Char)) (i : Nat) :
    (mkAbs (segs.take i)).length ≤ (mkAbs segs).length := by
  conv_rhs => rw [← List.take_append_drop i segs]
  rw [mkAbs_append]
  simp

theorem probeChain_mem_length {segs : List (List Char)} {q : List Char}
    (hq : q ∈ probeChain segs) : q.length ≤ (mkAbs segs).length := by
  unfold probeChain at hq
  obtain ⟨k, _, hfk⟩ := List.mem_map.mp hq
  rw [← hfk]
  exact mkAbs_take_length_le segs _

theorem probeChain_nodup (segs : List (List Char)) :
    (probeChain segs).Nodup := by
  induction segs using List.reverseRecOn with
  | nil => simp [probeChain_nil]
  | append_singleton L b ih =>
    rw [probeChain_concat]
    refine List.nodup_cons.mpr ⟨?_, ih⟩
    intro hmem
    have h1 := probeChain_mem_length hmem
    rw [mkAbs_concat_length] at h1
    omega

theorem probeChain_chain {segs : List (List Char)} (hgood : goodSegs segs) :
    List.Chain' (fun a b => b = reduce a) (probeChain segs) := by
  induction segs using List.reverseRecOn with
  | nil => simp [probeChain_nil]
  | append_singleton L b ih =>
    have hb : SEP ∉ b := (hgood b (by simp)).2
    have hgood' : goodSegs L := fun s hs => hgood s (by simp [hs])
    rw [probeChain_concat, List.chain'_cons']
    refine ⟨?_, ih hgood'⟩
    intro y hy
    rcases eq_or_ne L [] with rfl | hL
    · simp [probeChain_nil] at hy
    · rw [probeChain_head hL] at hy
      simp only [Option.mem_def, Option.some_inj] at hy
      rw [← hy]
      exact (reduce_mkAbs_concat hb).symm

/-- On a landmark-free filesystem the fuelled ancestor walk visits
exactly the `probeChain` candidates and ends not-found, for any
sufficient fuel. -/
theorem c6_walkF (fs : FS) (libp : List Char)
    (hfs : ∀ q, fs.isfile q = false) :
    ∀ segs fuel, segs ≠ [] → goodSegs segs →
      (mkAbs segs).length + libp.length + 30 ≤ MAXPATHLEN →
      (mkAbs segs).length < fuel →
      pfx_probesF fs libp (MAXPATHLEN + 1) fuel (mkAbs segs) = probeChain segs ∧
      pfx_loopF fs libp (MAXPATHLEN + 1) fuel (mkAbs segs) = .ok none := by
  intro segs
  induction segs using List.reverseRecOn with
  | nil => intro fuel hne; exact absurd rfl hne
  | append_singleton L b ih =>
    intro fuel hne hgood hbound hfuel
    obtain ⟨f, rfl⟩ : ∃ f, fuel = f + 1 := ⟨fuel - 1, by omega⟩
    have hb : SEP ∉ b := (hgood b (by simp)).2
    have hred : reduce (mkAbs (L ++ [b])) = mkAbs L := reduce_mkAbs_concat hb
    have hjmlen := @join_model_length_le (mkAbs (L ++ [b])) libp
    have hj : joinpath (mkAbs (L ++ [b])) libp (MAXPATHLEN + 1)
        = .ok (join_model (mkAbs (L ++ [b])) libp) :=
      joinpath_ok (by omega) (by omega)
    have hlm : LANDMARK.length = 5 := rfl
    have hjm2 := @join_model_length_le
      (join_model (mkAbs (L ++ [b])) libp) LANDMARK
    have hm : ismodule fs (join_model (mkAbs (L ++ [b])) libp) = .ok false :=
      ismodule_false hfs (by omega) (by omega)
    simp only [pfx_probesF, pfx_loopF, hj, hm, Bind.bind, Except.bind,
      Bool.false_eq_true, if_false, hred]
    rcases eq_or_ne L [] with rfl | hL
    · simp only [show mkAbs ([] : List (List Char)) = [] from rfl,
        List.isEmpty_nil, if_true]
      refine ⟨?_, rfl⟩
      rw [probeChain_concat, probeChain_nil]
    · have hLne : mkAbs L ≠ [] := mkAbs_ne_nil hL
      have hemp : (mkAbs L).isEmpty = false := by
        simp [List.isEmpty_iff, hLne]
      have hshort : (mkAbs L).length < (mkAbs (L ++ [b])).length := by
        rw [mkAbs_concat_length]
        omega
      have hgood' : goodSegs L := fun s hs => hgood s (by simp [hs])
      obtain ⟨ihp, ihl⟩ := ih f hL hgood'
        (by omega) (by omega)
      simp only [hemp, Bool.false_eq_true, if_false, ihp, ihl]
      exact ⟨(probeChain_concat L b).symm, trivial⟩

/-- On a landmark-free filesystem, with no home override, the prefix
search falls through the build-tree check and the whole ancestor walk
and ends at the PREFIX-macro fallback, tagged not-found. -/
theorem search_for_pfx_not_found (fs : FS) (c : CalcPath)
    (cwd : Option (List Char)) (segs : List (List Char))
    (hfs : ∀ q, fs.isfile q = false)
    (hne : segs ≠ []) (hgood : goodSegs segs)
    (hbound : (mkAbs segs).length + c.lib_python.length + 30 ≤ MAXPATHLEN)
    (hmac : c.pfxMacro.length + c.lib_python.length + 30 ≤ MAXPATHLEN) :
    search_for_pfx fs c none (mkAbs segs) cwd (MAXPATHLEN + 1)
      = .ok (join_model c.pfxMacro c.lib_python, 0) := by
  have h1 : safe_wcscpy (mkAbs segs) (MAXPATHLEN + 1) = .ok (mkAbs segs) :=
    safe_wcscpy_ok (by omega)
  have hmsl : ("Modules/Setup.local".data).length = 19 := rfl
  have hj1 := @join_model_length_le (mkAbs segs)
    ("Modules/Setup.local".data)
  have h2 : joinpath (mkAbs segs) "Modules/Setup.local".data (MAXPATHLEN + 1)
      = .ok (join_model (mkAbs segs) "Modules/Setup.local".data) :=
    joinpath_ok (by omega) (by omega)
  have h3 : copy_absolute cwd (mkAbs segs) (MAXPATHLEN + 1) = .ok (mkAbs segs) := by
    unfold copy_absolute
    rw [if_pos (isabs_mkAbs hne)]
    exact safe_wcscpy_ok (by omega)
  have h4 : pfx_loop fs c.lib_python (MAXPATHLEN + 1) (mkAbs segs) = .ok none :=
    (c6_walkF fs c.lib_python hfs segs ((mkAbs segs).length + 1) hne hgood hbound
      (by omega)).2
  have h5 : safe_wcscpy c.pfxMacro (MAXPATHLEN + 1) = .ok c.pfxMacro :=
    safe_wcscpy_ok (by omega)
  have hj2 := @join_model_length_le (c.pfxMacro) (c.lib_python)
  have h6 : joinpath c.pfxMacro c.lib_python (MAXPATHLEN + 1)
      = .ok (join_model c.pfxMacro c.lib_python) :=
    joinpath_ok (by omega) (by omega)
  have hlm : LANDMARK.length = 5 := rfl
  have hjm3 := @join_model_length_le (join_model c.pfxMacro c.lib_python)
    LANDMARK
  have h7 : ismodule fs (join_model c.pfxMacro c.lib_python) = .ok false :=
    ismodule_false hfs (by omega) (by omega)
  simp only [search_for_pfx, h1, h2, hfs, h3, h4, h5, h6, h7, Bind.bind,
    Except.bind, Bool.false_eq_true, if_false, pure, Except.pure]

/-- Claim C6: with no home override and no build marker, on an anchor
directory `N` segments deep whose filesystem holds no landmark
anywhere, the prefix ancestor walk probes exactly `N` candidate
directories, each successive candidate obtained from the previous by
removing one trailing path segment (`reduce`), never probing the same
candidate twice, and the search then falls back to the compiled
default, tagged not-found. -/
theorem claim_C6 (fs : FS) (c : CalcPath) (segs : List (List Char))
    (cwd : Option (List Char))
    (hfs : ∀ q, fs.isfile q = false)
    (hne : segs ≠ []) (hgood : goodSegs segs)
    (hbound : (mkAbs segs).length + c.lib_python.length + 30 ≤ MAXPATHLEN)
    (hmac : c.pfxMacro.length + c.lib_python.length + 30 ≤ MAXPATHLEN) :
    (pfx_probes fs c.lib_python (MAXPATHLEN + 1) (mkAbs segs)).length
      = segs.length ∧
    List.Chain' (fun a b => b = reduce a)
      (pfx_probes fs c.lib_python (MAXPATHLEN + 1) (mkAbs segs)) ∧
    (pfx_probes fs c.lib_python (MAXPATHLEN + 1) (mkAbs segs)).Nodup ∧
    search_for_pfx fs c none (mkAbs segs) cwd (MAXPATHLEN + 1)
      = .ok (join_model c.pfxMacro c.lib_python, 0) := by
  have hpp : pfx_probes fs c.lib_python (MAXPATHLEN + 1) (mkAbs segs)
      = probeChain segs :=
    (c6_walkF fs c.lib_python hfs segs ((mkAbs segs).length + 1) hne hgood hbound
      (by omega)).1
  refine ⟨?_, ?_, ?_, ?_⟩
  · rw [hpp, probeChain_length]
  · rw [hpp]
    exact probeChain_chain hgood
  · rw [hpp]
    exact probeChain_nodup segs
  · exact search_for_pfx_not_found fs c cwd segs hfs hne hgood hbound hmac

/-- Witness for C6: anchor `/opt/py/bin` (three segments), landmark-free
filesystem: exactly three probes, then the compiled-default fallback. -/
theorem claim_C6_witness :
    (pfx_probes fsNone calW.lib_python (MAXPATHLEN + 1)
      (mkAbs ["opt".data, "py".data, "bin".data])).length = 3 ∧
    search_for_pfx fsNone calW none (mkAbs ["opt".data, "py".data, "bin".data])
      none (MAXPATHLEN + 1)
      = .ok ("/usr/local/lib/python3.9".data, 0) := by
  have h := claim_C6 fsNone calW ["opt".data, "py".data, "bin".data] none
    (fun _ => rfl) (by decide) (by unfold goodSegs; decide) (by decide) (by decide)
  refine ⟨?_, ?_⟩
  · rw [h.1]
    rfl
  · rw [h.2.2.2]
    decide

/-- Claim C7: no bounded path-buffer operation exceeds its capacity or
silently truncates: whenever the untruncated join would reach or exceed
the capacity, `joinpath` returns the length error; a successful
`joinpath` returns exactly the untruncated join, strictly within
capacity; and likewise for the copy primitive `safe_wcscpy`. -/
theorem claim_C7 :
    (∀ (p p2 : List Char) (cap : Nat),
      cap ≤ (join_model p p2).length → joinpath p p2 cap = .error ()) ∧
    (∀ (p p2 : List Char) (cap : Nat) (r : List Char),
      joinpath p p2 cap = .ok r → r = join_model p p2 ∧ r.length < cap) ∧
    (∀ (src : List Char) (n : Nat),
      n ≤ src.length → safe_wcscpy src n = .error ()) ∧
    (∀ (src : List Char) (n : Nat) (r : List Char),
      safe_wcscpy src n = .ok r → r = src ∧ r.length < n) := by
  refine ⟨fun p p2 cap h => joinpath_err h, ?_, ?_, ?_⟩
  · intro p p2 cap r h
    by_cases hlt : (join_model p p2).length < cap
    · by_cases habs : isabs p2
      · unfold joinpath at h
        rw [if_pos habs] at h
        unfold join_model at hlt ⊢
        rw [if_pos habs] at hlt ⊢
        rw [if_neg (by omega)] at h
        cases h
        exact ⟨rfl, hlt⟩
      · by_cases hp : p.length < cap
        · rw [joinpath_ok hp hlt] at h
          cases h
          exact ⟨rfl, hlt⟩
        · unfold joinpath at h
          rw [if_neg habs, if_pos (by omega)] at h
          cases h
    · rw [joinpath_err (by omega)] at h
      cases h
  · intro src n h
    unfold safe_wcscpy
    rw [if_pos h]
  · intro src n r h
    unfold safe_wcscpy at h
    by_cases hlt : n ≤ src.length
    · rw [if_pos hlt] at h
      cases h
    · rw [if_neg hlt] at h
      cases h
      exact ⟨rfl, by omega⟩

/-- Witness for C7: an overlong join errors, an overlong copy errors,
and a fitting join returns the exact untruncated result. -/
theorem claim_C7_witness :
    joinpath "/ab".data "cdef".data 7 = .error () ∧
    safe_wcscpy "abc".data 3 = .error () ∧
    ("/ab/cd".data = join_model "/ab".data "cd".data ∧
      ("/ab/cd".data).length < 8) := by
  refine ⟨claim_C7.1 _ _ _ (by decide), claim_C7.2.2.1 _ _ (by decide), ?_⟩
  exact claim_C7.2.1 "/ab".data "cd".data 8 "/ab/cd".data (by decide)

/-- Claim C2: with an explicit home override the prefix search performs
no build-tree check, no ancestor walk and no filesystem existence
check: for every filesystem and every home value the computed prefix is
the home value truncated at the first path-list delimiter joined with
the standard-library subdirectory, and the outcome is tagged found. -/
theorem claim_C2 (fs : FS) (c : CalcPath) (home argv0 : List Char)
    (cwd : Option (List Char)) (cap : Nat)
    (h1 : home.length < cap)
    (h2 : (join_model (home.takeWhile (· != DELIM)) c.lib_python).length < cap) :
    search_for_pfx fs c (some home) argv0 cwd cap
      = .ok (join_model (home.takeWhile (· != DELIM)) c.lib_python, 1) := by
  have ht : (home.takeWhile (· != DELIM)).length < cap := by
    have := (List.takeWhile_sublist (l := home) (· != DELIM)).length_le
    omega
  simp only [search_for_pfx, safe_wcscpy_ok h1, joinpath_ok ht h2, Bind.bind,
    Except.bind, pure, Except.pure]

/-- Witness for C2: home `/py:/other` keeps only `/py` and yields
`/py/lib/python3.9`, found, on an empty filesystem. -/
theorem claim_C2_witness :
    search_for_pfx fsNone calW (some "/py:/other".data) "/x".data none
      (MAXPATHLEN + 1)
      = .ok ("/py/lib/python3.9".data, 1) := by
  rw [claim_C2 fsNone calW "/py:/other".data "/x".data none (MAXPATHLEN + 1)
    (by decide) (by decide)]
  decide

/-- Claim C4: a prefix found with the installed-tree tag passes through
`calculate_prefix` unchanged and is shortened by `calculate_set_prefix`
by exactly two trailing segments (two `reduce`s), an emptied result
being replaced by the root separator. -/
theorem claim_C4 (fs : FS) (c : CalcPath) (home : Option (List Char))
    (argv0 : List Char) (cwd : Option (List Char)) (cap : Nat) (p : List Char)
    (h : search_for_pfx fs c home argv0 cwd cap = .ok (p, 1)) :
    calculate_pfx fs c home argv0 cwd cap = .ok (p, 1) ∧
    calculate_set_pfx 1 p c.pfxMacro
      = (if (reduce (reduce p)).isEmpty then [SEP] else reduce (reduce p)) := by
  constructor
  · simp only [calculate_pfx, h, Bind.bind, Except.bind]
    rw [if_neg (by decide)]
    rfl
  · simp only [calculate_set_pfx]
    rw [if_pos (by decide : (0 : Int) < 1)]

/-- Witness for C4 (scenario A): anchor `/opt/runtime/bin`, landmark at
`/opt/runtime/lib/python3.9/os.py`: the walk finds
`/opt/runtime/lib/python3.9` tagged installed and the final prefix is
`/opt/runtime`. -/
theorem claim_C4_witness :
    calculate_pfx fsA calW none "/opt/runtime/bin".data none (MAXPATHLEN + 1)
      = .ok ("/opt/runtime/lib/python3.9".data, 1) ∧
    calculate_set_pfx 1 "/opt/runtime/lib/python3.9".data calW.pfxMacro
      = "/opt/runtime".data := by
  have h := claim_C4 fsA calW none "/opt/runtime/bin".data none (MAXPATHLEN + 1)
    "/opt/runtime/lib/python3.9".data (by decide)
  refine ⟨h.1, ?_⟩
  rw [h.2]
  decide

theorem joinD_cons {x : List Char} {xs : List (List Char)} (h : xs ≠ []) :
    joinD (x :: xs) = x ++ DELIM :: joinD xs := by
  cases xs with
  | nil => exact absurd rfl h
  | cons y ys => rfl

theorem joinD_append_single {xs : List (List Char)} {y : List Char}
    (h : xs ≠ []) : joinD (xs ++ [y]) = joinD xs ++ DELIM :: y := by
  induction xs with
  | nil => exact absurd rfl h
  | cons x xs ih =>
    cases xs with
    | nil => rfl
    | cons z zs =>
      rw [List.cons_append, joinD_cons (by simp), joinD_cons (by simp),
        ih (by simp)]
      simp [List.append_assoc]

theorem split_delim_ne_nil (l : List Char) : split_delim l ≠ [] := by
  cases l with
  | nil => simp [split_delim]
  | cons c rest =>
    unfold split_delim
    by_cases hc : c = DELIM
    · simp [hc]
    · rw [if_neg hc]
      cases h : split_delim rest with
      | nil => simp
      | cons e es => simp

theorem msp_merge_eq_joinD (pfx : List Char) :
    ∀ es : List (List Char), es ≠ [] →
      msp_merge pfx es = joinD (es.map (msp_entry pfx)) := by
  intro es
  induction es with
  | nil => intro h; exact absurd rfl h
  | cons e es ih =>
    intro _
    cases es with
    | nil => rfl
    | cons f fs =>
      rw [show msp_merge pfx (e :: f :: fs)
          = msp_entry pfx e ++ DELIM :: msp_merge pfx (f :: fs) from rfl,
        ih (by simp)]
      conv_rhs => rw [List.map_cons,
        @joinD_cons (msp_entry pfx e) ((f :: fs).map (msp_entry pfx)) (by simp)]

theorem msp_entry_spec_eq {pfx : List Char} (h : pfx ≠ []) (e : List Char) :
    msp_entry_spec pfx e = msp_entry pfx e := by
  unfold msp_entry_spec msp_entry
  by_cases habs : isabs e
  · simp [habs]
  · rw [if_neg habs, if_neg habs]
    by_cases h1 : e ≠ [] <;> by_cases h2 : pfx.getLast? ≠ some SEP <;>
      simp [h1, h2, h]

/-- Claim C1: when the module search path is not preset, the assembled
value is the delimiter-separated concatenation of the
environment-supplied search path string (if present), the zip archive
path, each compile-time defpath entry with every relative entry
prefixed by the resolved prefix (separator inserted unless the entry is
empty or the prefix already ends in one), and the exec-prefix; in
particular the documented scenario assembles to
`/extra:/usr/lib/py39.zip:/usr/lib-dynload:/usr/lib/py39/dynload`. -/
theorem claim_C1 :
    (∀ (env : Option (List Char)) (defpath pfx exec_p zip : List Char),
      pfx ≠ [] →
      calculate_module_search_path env defpath pfx exec_p zip
        = joinD (env.toList ++ zip ::
            ((split_delim defpath).map (msp_entry_spec pfx) ++ [exec_p]))) ∧
    calculate_module_search_path (some "/extra".data) "lib-dynload".data
      "/usr".data "/usr/lib/py39/dynload".data "/usr/lib/py39.zip".data
      = "/extra:/usr/lib/py39.zip:/usr/lib-dynload:/usr/lib/py39/dynload".data := by
  constructor
  · intro env defpath pfx exec_p zip hp
    have hsn : split_delim defpath ≠ [] := split_delim_ne_nil defpath
    have hmapn : (split_delim defpath).map (msp_entry pfx) ≠ [] := by
      simpa using hsn
    have hspec : (split_delim defpath).map (msp_entry_spec pfx)
        = (split_delim defpath).map (msp_entry pfx) :=
      List.map_congr_left (fun e _ => msp_entry_spec_eq hp e)
    have hcore : joinD (zip ::
        ((split_delim defpath).map (msp_entry pfx) ++ [exec_p]))
        = zip ++ DELIM ::
            (msp_merge pfx (split_delim defpath) ++ DELIM :: exec_p) := by
      rw [joinD_cons (by simp), joinD_append_single hmapn,
        msp_merge_eq_joinD pfx _ hsn]
    rw [hspec]
    cases env with
    | none =>
      unfold calculate_module_search_path
      simp only [Option.toList, List.nil_append]
      rw [hcore]
      simp [List.cons_append, List.append_assoc]
    | some e =>
      unfold calculate_module_search_path
      simp only [Option.toList, List.cons_append, List.nil_append]
      rw [joinD_cons (by simp), hcore]
      simp [List.cons_append, List.append_assoc]
  · decide

/-- Witness for C1 (non-empty-prefix hypothesis discharged at a
concrete input). -/
theorem claim_C1_witness :
    calculate_module_search_path none "sub:/abs".data "/p".data "/e".data
      "/z.zip".data
      = joinD (("/z.zip".data) ::
          ((split_delim "sub:/abs".data).map (msp_entry_spec "/p".data)
            ++ ["/e".data])) := by
  have h := claim_C1.1 none "sub:/abs".data "/p".data "/e".data "/z.zip".data
    (by decide)
  simpa using h

/-- Counterexample to C3 as stated: on a chain of 41 links the symlink
resolution does fail with the cycle error, but the anchor-directory
computation discards that status — `calculate_argv0_path` succeeds, so
the failure is not surfaced to the caller and does not abort the path
computation. -/
theorem claim_C3_counterexample :
    (resolve_symlinks (chainFS 41) (MAXPATHLEN + 1) (nameL 0)).1 = .err ∧
    calculate_argv0_path (chainFS 41) (nameL 0) (MAXPATHLEN + 1) = .ok [] := by
  decide

/-- Claim C3 (amended): symlink resolution follows at most 40 link
hops: a chain of 39 links resolves to the final non-link target; a
chain of 41 links makes `resolve_symlinks` fail with the symlink-cycle
error after the 40th hop; but `calculate_argv0_path` discards the
resolution status, so exceeding the bound does not abort the path
computation and no startup failure is surfaced — the computation
continues from the partially resolved path. -/
theorem claim_C3_amended :
    resolve_symlinks (chainFS 39) (MAXPATHLEN + 1) (nameL 0)
      = (.ok, nameL 39) ∧
    resolve_symlinks (chainFS 41) (MAXPATHLEN + 1) (nameL 0)
      = (.err, nameL 40) ∧
    calculate_argv0_path (chainFS 41) (nameL 0) (MAXPATHLEN + 1) = .ok [] ∧
    calculate_argv0_path (chainFS 39) (nameL 0) (MAXPATHLEN + 1) = .ok [] := by
  decide

/-- Counterexample to C5 as stated: in scenario B the search's prefix
value is `/src/Lib`, not the anchor `/src`, and the final prefix output
is the compile-time default `/usr/local` — it is replaced by a
compile-time default, contrary to the claim. -/
theorem claim_C5_counterexample :
    search_for_pfx fsB calW none "/src".data none (MAXPATHLEN + 1)
      = .ok ("/src/Lib".data, -1) ∧
    calculate_set_pfx (-1) "/src/Lib".data calW.pfxMacro
      = "/usr/local".data ∧
    ("/usr/local".data : List Char) ≠ "/src".data ∧
    ("/src/Lib".data : List Char) ≠ "/src".data := by
  decide

/-- Claim C5 (amended): when the build-tree check succeeds — the build
marker exists in the anchor directory and the landmark is found under
`<anchor>/<vpath>/Lib` — the outcome is tagged found-via-build-tree and
the search's prefix value is that build-tree path with no trailing
segments stripped; the final reported prefix output, however, is the
compile-time default prefix, not the build-tree path. -/
theorem claim_C5_amended (fs : FS) (c : CalcPath) (argv0 : List Char)
    (cwd : Option (List Char)) (cap : Nat) (v q1 q : List Char)
    (hv : c.vpath = some v)
    (h0 : argv0.length < MAXPATHLEN + 1)
    (h1 : (join_model argv0 "Modules/Setup.local".data).length < MAXPATHLEN + 1)
    (hmark : fs.isfile (join_model argv0 "Modules/Setup.local".data) = true)
    (h2 : argv0.length < cap)
    (hj1 : joinpath argv0 v cap = .ok q1)
    (hj2 : joinpath q1 "Lib".data cap = .ok q)
    (hm : ismodule fs q = .ok true) :
    search_for_pfx fs c none argv0 cwd cap = .ok (q, -1) ∧
    calculate_set_pfx (-1) q c.pfxMacro = c.pfxMacro := by
  constructor
  · simp only [search_for_pfx, safe_wcscpy_ok h0, joinpath_ok h0 h1,
      hmark, hv, safe_wcscpy_ok h2, hj1, hj2, hm, Bind.bind, Except.bind,
      eq_self_iff_true, if_true, pure, Except.pure]
  · unfold calculate_set_pfx
    rw [if_neg (by decide)]

/-- Witness for C5 (amended), scenario B: anchor `/src`, marker present,
`/src/Lib/os.py` exists: search result `/src/Lib` tagged build tree,
final prefix the PREFIX macro. -/
theorem claim_C5_witness :
    search_for_pfx fsB calW none "/src".data none (MAXPATHLEN + 1)
      = .ok ("/src/Lib".data, -1) ∧
    calculate_set_pfx (-1) "/src/Lib".data calW.pfxMacro = calW.pfxMacro := by
  exact claim_C5_amended fsB calW "/src".data none (MAXPATHLEN + 1)
    [] "/src/".data "/src/Lib".data rfl (by decide) (by decide) (by decide)
    (by decide) (by decide) (by decide) (by decide)

/-- Counterexample to C8 as stated: with the redirection file present
only in the anchor's grandparent (and defining a home key), the code
does not find it — the anchor is left unchanged instead of being
replaced by the home value. -/
theorem claim_C8_counterexample :
    calculate_read_pyenv fsG "/a/b/c".data (MAXPATHLEN + 1)
      = .ok "/a/b/c".data ∧
    ("/a/b/c".data : List Char) ≠ "/h".data := by
  decide

/-- Claim C8 (amended): the redirection file is looked up first in the
anchor directory and then, only if it cannot be opened there, in the
anchor directory's parent directory (not grandparent); if found and it
defines a home key, that value replaces the anchor for all subsequent
searches; absence of the file in both places, or of the key, is not an
error and leaves the anchor unchanged. -/
theorem claim_C8_amended (fs : FS) (anchor : List Char) (cap : Nat)
    (h : List Char)
    (hn0 : anchor ≠ []) (hns : anchor.getLast? ≠ some SEP)
    (hlen : anchor.length < MAXPATHLEN + 1)
    (hlen1 : (join_model anchor "pyvenv.cfg".data).length < MAXPATHLEN + 1)
    (hlen2 : (join_model (reduce anchor) "pyvenv.cfg".data).length
      < MAXPATHLEN + 1)
    (hcap : h.length < cap) :
    (fs.pyvenvHome (join_model anchor "pyvenv.cfg".data) = some (some h) →
      calculate_read_pyenv fs anchor cap = .ok h) ∧
    (fs.pyvenvHome (join_model anchor "pyvenv.cfg".data) = none →
      fs.pyvenvHome (join_model (reduce anchor) "pyvenv.cfg".data)
        = some (some h) →
      calculate_read_pyenv fs anchor cap = .ok h) ∧
    (fs.pyvenvHome (join_model anchor "pyvenv.cfg".data) = none →
      fs.pyvenvHome (join_model (reduce anchor) "pyvenv.cfg".data) = none →
      calculate_read_pyenv fs anchor cap = .ok anchor) ∧
    (fs.pyvenvHome (join_model anchor "pyvenv.cfg".data) = some none →
      calculate_read_pyenv fs anchor cap = .ok anchor) := by
  have hsepcfg : SEP ∉ "pyvenv.cfg".data := by decide
  have hjm : join_model anchor "pyvenv.cfg".data
      = anchor ++ SEP :: "pyvenv.cfg".data := by
    unfold join_model
    rw [if_neg (by decide), if_pos ⟨hn0, hns⟩]
    simp [List.append_assoc]
  have hrr : reduce (reduce (join_model anchor "pyvenv.cfg".data))
      = reduce anchor := by
    rw [hjm, reduce_append_seg hsepcfg]
  have hrlen : (reduce anchor).length < MAXPATHLEN + 1 := by
    have := reduce_length_le anchor
    omega
  refine ⟨?_, ?_, ?_, ?_⟩
  · intro hfs
    simp only [calculate_read_pyenv, safe_wcscpy_ok hlen,
      joinpath_ok hlen hlen1, Bind.bind, Except.bind, hfs,
      safe_wcscpy_ok hcap]
  · intro hfs1 hfs2
    simp only [calculate_read_pyenv, safe_wcscpy_ok hlen,
      joinpath_ok hlen hlen1, Bind.bind, Except.bind, hfs1, hrr,
      joinpath_ok hrlen hlen2, hfs2, safe_wcscpy_ok hcap]
  · intro hfs1 hfs2
    simp only [calculate_read_pyenv, safe_wcscpy_ok hlen,
      joinpath_ok hlen hlen1, Bind.bind, Except.bind, hfs1, hrr,
      joinpath_ok hrlen hlen2, hfs2, pure, Except.pure]
  · intro hfs
    simp only [calculate_read_pyenv, safe_wcscpy_ok hlen,
      joinpath_ok hlen hlen1, Bind.bind, Except.bind, hfs, pure, Except.pure]

/-- Witness for C8 (amended): the file in the anchor's parent is found
and its home value replaces the anchor. -/
theorem claim_C8_witness :
    calculate_read_pyenv fsP "/a/b/c".data (MAXPATHLEN + 1)
      = .ok "/h".data := by
  exact (claim_C8_amended fsP "/a/b/c".data (MAXPATHLEN + 1) "/h".data
    (by decide) (by decide) (by decide) (by decide) (by decide)
    (by decide)).2.1 (by decide) (by decide)

/-- Claim C10: every prefix landmark probe goes through the single
shared predicate `ismodule`, which succeeds when the landmark `os.py`
is a file at the candidate or, failing that (and capacity permitting),
when its compiled variant `os.pyc` is; consequently the build-tree
check, an ancestor-walk candidate and the compiled-default fallback
each accept a pyc-only location. -/
theorem claim_C10 :
    (∀ (fs : FS) (path : List Char),
      path.length < MAXPATHLEN + 1 →
      (join_model path LANDMARK).length + 2 ≤ MAXPATHLEN + 1 →
      ismodule fs path
        = .ok (fs.isfile (join_model path LANDMARK)
               || fs.isfile (join_model path LANDMARK ++ ['c']))) ∧
    search_for_pfx fsBc calW none "/src".data none (MAXPATHLEN + 1)
      = .ok ("/src/Lib".data, -1) ∧
    search_for_pfx fsAc calW none "/opt/runtime/bin".data none (MAXPATHLEN + 1)
      = .ok ("/opt/runtime/lib/python3.9".data, 1) ∧
    search_for_pfx fsFc calW none "/nowhere".data none (MAXPATHLEN + 1)
      = .ok ("/usr/local/lib/python3.9".data, 1) := by
  refine ⟨fun fs path h1 h2 => ismodule_eq h1 h2, by decide, by decide, by decide⟩

/-- Witness for C10: the shared predicate evaluated at the pyc-only
installed location reports the landmark found. -/
theorem claim_C10_witness :
    ismodule fsAc "/opt/runtime/lib/python3.9".data
      = .ok (fsAc.isfile (join_model "/opt/runtime/lib/python3.9".data LANDMARK)
             || fsAc.isfile
                 (join_model "/opt/runtime/lib/python3.9".data LANDMARK ++ ['c'])) ∧
    ismodule fsAc "/opt/runtime/lib/python3.9".data = .ok true := by
  have h := claim_C10.1 fsAc "/opt/runtime/lib/python3.9".data (by decide)
    (by decide)
  refine ⟨h, ?_⟩
  rw [h]
  decide

/-- Claim C9: each of the four output fields (full executable path,
module search path, prefix, exec-prefix) that is already set (non-NULL)
when the computation starts is left unchanged by `calculate_path`; only
fields that start unset are filled in. -/
theorem claim_C9 (fs : FS) (c : CalcPath) (cwd : Option (List Char))
    (pc pc' : PathConfig) (h : calculate_path fs c cwd pc = .ok pc') :
    (∀ x, pc.program_full_path = some x → pc'.program_full_path = some x) ∧
    (∀ x, pc.module_search_path = some x → pc'.module_search_path = some x) ∧
    (∀ x, pc.pfx = some x → pc'.pfx = some x) ∧
    (∀ x, pc.exec_pfx = some x → pc'.exec_pfx = some x) ∧
    pc'.home = pc.home ∧ pc'.program_name = pc.program_name := by
  unfold calculate_path at h
  obtain ⟨fullpath, hfp, h⟩ := except_bind_ok h
  obtain ⟨argv0, ha, h⟩ := except_bind_ok h
  obtain ⟨argv1, hb, h⟩ := except_bind_ok h
  obtain ⟨pr, hc, h⟩ := except_bind_ok h
  obtain ⟨zip, hd, h⟩ := except_bind_ok h
  obtain ⟨er, he, h⟩ := except_bind_ok h
  simp only [pure, Except.pure, Except.ok.injEq] at h
  subst h
  refine ⟨?_, ?_, ?_, ?_, rfl, rfl⟩
  · intro x hx
    rw [hx] at hfp
    simp only [pure, Except.pure, Except.ok.injEq] at hfp
    simp [hfp]
  · intro x hx
    simp [hx]
  · intro x hx
    simp [hx]
  · intro x hx
    simp [hx]

/-- Witness for C9: a run in which all four fields are preset leaves
all of them exactly as supplied. -/
theorem claim_C9_witness :
    calculate_path fsA calW none pcPre = .ok pcPre ∧
    pcPre.program_full_path = some "/opt/runtime/bin/python3".data ∧
    pcPre.module_search_path = some "preset".data ∧
    pcPre.pfx = some "presetp".data ∧
    pcPre.exec_pfx = some "presete".data := by
  have h0 : calculate_path fsA calW none pcPre = .ok pcPre := by decide
  have h := claim_C9 fsA calW none pcPre pcPre h0
  exact ⟨h0, h.1 _ rfl, h.2.1 _ rfl, h.2.2.1 _ rfl, h.2.2.2.1 _ rfl⟩

end GetPath
